import Mathlib

/-!
# EvaluateRelevance: the Go evaluator driver

A shallow embedding of `other_languages/evaluate_relevance.go` (and of the
line splitter of `other_languages/evaluate_relevance_no_concurrency.go`).

Go strings are byte sequences, so they are embedded as lists of bytes.  The
host (filesystem, process execution, clocks) is an explicit parameter of every
function that touches it.  Go results `(value, error)` are pairs whose second
component is `none` for a nil error.
-/

namespace EvaluateRelevance

/-! ## Strings -/

/-- A Go `string`: an immutable sequence of bytes. -/
abbrev GoString := List UInt8

/-- A Go `error`, identified with its message; a nil error is `none : Option GoError`. -/
abbrev GoError := GoString

/-- The bytes of a string literal of the source (Go source text is UTF-8). -/
def str (s : String) : GoString := s.toList.flatMap String.utf8EncodeChar

/-- The line feed byte. -/
def LF : UInt8 := 10

/-- The carriage return byte. -/
def CR : UInt8 := 13

/-- Go `strings.HasPrefix(s, pre)`: `len(s) >= len(pre) && s[:len(pre)] == pre`. -/
def HasPrefix (s pre : GoString) : Bool :=
  decide (pre.length ≤ s.length) && decide (s.take pre.length = pre)

/-- Go `strings.TrimPrefix(s, pre)`: `s[len(pre):]` when `s` has the prefix, else `s`. -/
def TrimPrefix (s pre : GoString) : GoString :=
  if HasPrefix s pre then s.drop pre.length else s

/-- Go `strings.Contains(s, substr)`: `substr` occurs at some offset of `s`. -/
def Contains : GoString → GoString → Bool
  | [], substr => HasPrefix [] substr
  | b :: s, substr => HasPrefix (b :: s) substr || Contains s substr

/-- Go `strings.Join(elems, sep)`. -/
def Join (elems : List GoString) (sep : GoString) : GoString :=
  List.intercalate sep elems

/-! ## bufio.Scanner with the default split function ScanLines -/

/-- The constant `bufio.MaxScanTokenSize`: the size a Scanner buffer may grow to. -/
def MaxScanTokenSize : Nat := 64 * 1024

/-- The helper `dropCR` of `bufio.ScanLines`: drop one trailing carriage return. -/
def dropCR (data : GoString) : GoString :=
  if data.getLast? = some CR then data.dropLast else data

/-- The tokens that successive `scanner.Scan()` / `scanner.Text()` calls deliver.
`cur` holds the bytes buffered for the token in progress, the second argument is
the input not yet read.  A line feed ends the token (`ScanLines` returns the
buffered bytes through `dropCR`).  When the buffer would hold `MaxScanTokenSize`
bytes with no line feed among them, `Scan` fails with `ErrTooLong` and returns
false, which ends the loop of the caller.  At end of input a non-empty
unterminated rest is the final token. -/
def scanTokens : GoString → GoString → List GoString
  | cur, [] => if cur = [] then [] else [dropCR cur]
  | cur, b :: rest =>
    if b = LF then dropCR cur :: scanTokens [] rest
    else if MaxScanTokenSize ≤ cur.length + 1 then []
    else scanTokens (cur ++ [b]) rest

/-- Go `parseRawResultArray` of evaluate_relevance.go: scan the lines, append the
remainder of every line carrying the combined or the answer marker. -/
def parseRawResultArray (result : GoString) : List GoString :=
  (scanTokens [] result).foldl
    (fun results line =>
      if HasPrefix line (str "Q: A: ") then results ++ [TrimPrefix line (str "Q: A: ")]
      else if HasPrefix line (str "A: ") then results ++ [TrimPrefix line (str "A: ")]
      else results)
    []

/-! ## The line splitter of evaluate_relevance_no_concurrency.go -/

namespace NoConcurrency

/-- Go `regexp.MustCompile("\r\n|\r|\n").Split(s, -1)`: the pieces of `s` between
the line endings, a CR LF pair counting as one ending (leftmost alternative first).
`cur` holds the piece in progress. -/
def reSplit : GoString → GoString → List GoString
  | cur, [] => [cur]
  | cur, b :: rest =>
    if b = CR then
      match rest with
      | [] => cur :: reSplit [] []
      | c :: rest2 => if c = LF then cur :: reSplit [] rest2 else cur :: reSplit [] (c :: rest2)
    else if b = LF then cur :: reSplit [] rest
    else reSplit (cur ++ [b]) rest

/-- Go `parseRawResultArray` of evaluate_relevance_no_concurrency.go: every piece
with the answer marker contributes what follows the marker
(`strings.SplitN(resultRaw, "A: ", 2)[1]`). -/
def parseRawResultArray (result : GoString) : List GoString :=
  (reSplit [] result).foldl
    (fun resultsArray resultRaw =>
      if HasPrefix resultRaw (str "A: ") then resultsArray ++ [resultRaw.drop (str "A: ").length]
      else resultsArray)
    []

end NoConcurrency

/-! ## time.Duration rendering -/

/-- Go `fmtFrac` loop of package time: `n` remaining digit positions, `buf` the bytes
already written (the buffer is filled from the right). -/
def fmtFracLoop : Nat → GoString → Nat → Bool → GoString × Nat × Bool
  | 0, buf, v, print => (buf, v, print)
  | n + 1, buf, v, print =>
    let digit := v % 10
    let print := print || decide (digit ≠ 0)
    fmtFracLoop n (if print then (UInt8.ofNat digit + 48) :: buf else buf) (v / 10) print

/-- Go `fmtFrac(buf, v, prec)`: the fraction `v / 10^prec` without trailing zeros,
the decimal point included when a digit was printed; returns the buffer and
`v / 10^prec`. -/
def fmtFrac (buf : GoString) (v prec : Nat) : GoString × Nat :=
  let r := fmtFracLoop prec buf v false
  (if r.2.2 then 46 :: r.1 else r.1, r.2.1)

/-- The loop `for v > 0` of Go `fmtInt`; the first argument bounds the iterations. -/
def fmtIntLoop : Nat → GoString → Nat → GoString
  | 0, buf, _ => buf
  | n + 1, buf, v => if 0 < v then fmtIntLoop n ((UInt8.ofNat (v % 10) + 48) :: buf) (v / 10) else buf

/-- Go `fmtInt(buf, v)`: the decimal digits of `v` written in front of `buf`
(`v` iterations are enough since `v / 10 < v`). -/
def fmtInt (buf : GoString) (v : Nat) : GoString :=
  if v = 0 then 48 :: buf else fmtIntLoop v buf v

/-- Go `time.Duration.String()` for a duration of `d` nanoseconds, which is what the
verb `%s` prints for a `time.Duration`. -/
def durationString (d : Int) : GoString :=
  let u := d.natAbs
  let body : GoString :=
    if u < 1000000000 then
      if u = 0 then str "0s"
      else if u < 1000 then
        let r := fmtFrac (str "ns") u 0
        fmtInt r.1 r.2
      else if u < 1000000 then
        let r := fmtFrac (str "µs") u 3
        fmtInt r.1 r.2
      else
        let r := fmtFrac (str "ms") u 6
        fmtInt r.1 r.2
    else
      let r := fmtFrac (str "s") u 9
      let buf := fmtInt r.1 (r.2 % 60)
      let u := r.2 / 60
      if 0 < u then
        let buf := fmtInt (109 :: buf) (u % 60)
        let u := u / 60
        if 0 < u then fmtInt (104 :: buf) u else buf
      else buf
  if d < 0 then 45 :: body else body

/-! ## The host -/

/-- What `os.Stat` reports about a path: `IsDir()` and the `Mode()` bits. -/
structure FileInfo where
  isDir : Bool
  mode : Nat

/-- The state of the machine the program runs on. -/
structure Host where
  /-- The constant `runtime.GOOS`. -/
  goos : GoString
  /-- The result of `os.Geteuid()`. -/
  euid : Int
  /-- The function `os.Stat`; `none` when it returns an error. -/
  stat : GoString → Option FileInfo
  /-- The function `os.WriteFile(name, data, 0644)`; `none` when it succeeds. -/
  writeFile : GoString → GoString → Option GoError

/-- How the `select` of evaluateRelevanceRawStdin is decided. -/
inductive Race where
  /-- The channel `done` delivers first: `cmd.Wait()` returned `waitErr` before the timer
  fired, with the captured output and the elapsed time in nanoseconds read afterwards. -/
  | done (waitErr : Option GoError) (stdout stderr : GoString) (elapsed : Int)
  /-- The 30 second timer fires first. -/
  | timer

/-- The behaviour of one `exec.Command(path, "-t", "-showtypes")`. -/
structure Exec where
  /-- The error of `cmd.StdinPipe()`. -/
  stdinPipe : GoString → Option GoError
  /-- The error of `cmd.Start()`. -/
  start : GoString → Option GoError
  /-- The race between process exit and timer, for a path and the bytes sent to standard input. -/
  race : GoString → GoString → Race

/-- What the launched evaluator process does, as far as `cmd.Wait()` and the timer see it. -/
structure Process where
  /-- The status the process exits with. -/
  exitStatus : Nat
  /-- Whether the process exits before the 30 second timer fires. -/
  exitsBeforeTimer : Bool
  /-- Whether the write ends of the standard output and standard error pipes are closed by
  all their holders (the process and any child that inherited them) before the timer fires. -/
  pipesCloseBeforeTimer : Bool
  /-- The bytes copied from standard output. -/
  stdout : GoString
  /-- The bytes copied from standard error. -/
  stderr : GoString
  /-- The elapsed time in nanoseconds when `cmd.Wait()` has returned. -/
  elapsed : Int

/-- The message of the `*exec.ExitError` for a non-zero exit status. -/
def exitError (status : Nat) : GoError :=
  str "exit status " ++ fmtInt [] status

/-- Package os/exec: `cmd.Stdout` and `cmd.Stderr` are `bytes.Buffer`s (not files), so
`cmd.Wait()` returns once the process has exited and the copying from both pipes has
ended, which it does when every holder has closed them.  Its error is nil exactly for
exit status zero. -/
def waitRace (pr : Process) : Race :=
  if pr.exitsBeforeTimer && pr.pipesCloseBeforeTimer then
    Race.done (if pr.exitStatus = 0 then none else some (exitError pr.exitStatus))
      pr.stdout pr.stderr pr.elapsed
  else Race.timer

/-- The command that starts and runs as the process `pr`. -/
def processExec (pr : Process) : Exec :=
  ⟨fun _ => none, fun _ => none, fun _ _ => waitRace pr⟩

/-! ## evaluate_relevance.go -/

/-- The constant `fileWriteOutput`. -/
def fileWriteOutput : Bool := false

/-- The variable `qnaPaths`. -/
def qnaPaths : List GoString :=
  [ str "/usr/local/bin/qna",
    str "/Library/BESAgent/BESAgent.app/Contents/MacOS/QnA",
    str "/opt/BESClient/bin/qna",
    str "C:/Program Files (x86)/BigFix Enterprise/BES Client/qna.exe",
    str "qna",
    str "qna.exe" ]

/-- Go `isExecutable`. -/
def isExecutable (h : Host) (path : GoString) : Bool :=
  match h.stat path with
  | none => false
  | some info =>
    if h.goos = str "windows" then !info.isDir
    else !info.isDir && decide (info.mode &&& 0o111 ≠ 0)

/-- The loop of Go `getQnaPath` over a candidate list. -/
def getQnaPathFrom (h : Host) : List GoString → GoString × Option GoError
  | [] => ([], some (str "valid QNA path not found"))
  | path :: rest =>
    if (h.stat path).isSome then
      if isExecutable h path then (path, none) else getQnaPathFrom h rest
    else getQnaPathFrom h rest

/-- Go `getQnaPath`. -/
def getQnaPath (h : Host) : GoString × Option GoError :=
  getQnaPathFrom h qnaPaths

/-- What one call of evaluateRelevanceRawStdin returns and does. -/
structure RawRun where
  /-- The returned string. -/
  output : GoString
  /-- The returned error. -/
  err : Option GoError
  /-- The string handed to `io.WriteString(stdin, ...)`, once the writer goroutine is launched. -/
  stdin : Option GoString
  /-- Whether `cmd.Process.Kill()` was called. -/
  killed : Bool
  /-- What `fmt.Printf` wrote to the console. -/
  printed : List GoString

/-- The text of `output` after the trailer and the note are appended. -/
def annotate (stdout : GoString) (elapsed : Int) : GoString :=
  let output := stdout ++ (str "Time Taken: " ++ durationString elapsed ++ str " as measured by Go.\n")
  if Contains output (str "E: The operator \"string\" is not defined.") then
    output ++ str "\nInfo: This error means a result was found, but it does not have a string representation."
  else output

/-- Go `evaluateRelevanceRawStdin`. -/
def evaluateRelevanceRawStdin (h : Host) (x : Exec) (relevance pathQna : GoString) : RawRun :=
  let relevance := if HasPrefix relevance (str "Q: ") then relevance.drop 3 else relevance
  if h.goos = str "darwin" ∧ h.euid ≠ 0 then
    ⟨[], some (str "this script must be run as root or with sudo on MacOS"), none, false, []⟩
  else
    match (if pathQna = [] then getQnaPath h else (pathQna, none)) with
    | (_, some e) => ⟨[], some e, none, false, []⟩
    | (pathQna, none) =>
      match x.stdinPipe pathQna with
      | some e => ⟨[], some e, none, false, []⟩
      | none =>
        let payload := relevance ++ str "\n"
        match x.start pathQna with
        | some e => ⟨[], some e, some payload, false, []⟩
        | none =>
          match x.race pathQna payload with
          | Race.timer => ⟨[], some (str "command timed out"), some payload, true, []⟩
          | Race.done (some e) _ _ _ => ⟨[], some e, some payload, false, []⟩
          | Race.done none stdout stderr elapsed =>
            let output := annotate stdout elapsed
            let printed := if stderr ≠ [] then [str "Error: " ++ stderr ++ str "\n"] else []
            if fileWriteOutput then
              match h.writeFile (str "relevance_out.txt") output with
              | some e => ⟨output, some e, some payload, false, printed⟩
              | none =>
                match h.writeFile (str "relevance_str.txt")
                    (Join (parseRawResultArray output) (str "\n")) with
                | some e => ⟨output, some e, some payload, false, printed⟩
                | none => ⟨output, none, some payload, false, printed⟩
            else ⟨output, none, some payload, false, printed⟩

/-- Go `evaluateRelevanceRaw`. -/
def evaluateRelevanceRaw (h : Host) (x : Exec) (relevance pathQna : GoString) :
    GoString × Option GoError :=
  let r := evaluateRelevanceRawStdin h x relevance pathQna
  (r.output, r.err)

/-- Go `evaluateRelevanceArray`. -/
def evaluateRelevanceArray (h : Host) (x : Exec) (relevance pathQna : GoString) :
    List GoString × Option GoError :=
  match evaluateRelevanceRaw h x relevance pathQna with
  | (_, some e) => ([], some e)
  | (raw, none) => (parseRawResultArray raw, none)

/-- Go `evaluateRelevanceString`. -/
def evaluateRelevanceString (h : Host) (x : Exec) (relevance separator pathQna : GoString) :
    GoString × Option GoError :=
  match evaluateRelevanceArray h x relevance pathQna with
  | (_, some e) => ([], some e)
  | (results, none) => (Join results separator, none)

/-- What `os.WriteFile` is asked to write. -/
structure FileWrite where
  name : GoString
  data : GoString
  perm : Nat
  deriving DecidableEq

/-- Go `writeRelevanceFile`: the write it issues and the error it returns. -/
def writeRelevanceFile (h : Host) (relevance relFilePath : GoString) :
    FileWrite × Option GoError :=
  let relevance := if !HasPrefix relevance (str "Q: ") then str "Q: " ++ relevance else relevance
  (⟨relFilePath, relevance, 0o644⟩, h.writeFile relFilePath relevance)

/-- The body of one worker goroutine of evaluateRelevancesArrayToMany, up to the
point where it reports: the pair `(res, err)`. -/
def worker (h : Host) (x : Exec) (resultsType rel pathQna : GoString) :
    List GoString × Option GoError :=
  if resultsType = str "array" then evaluateRelevanceArray h x rel pathQna
  else
    let r := evaluateRelevanceString h x rel (str "\n") pathQna
    ([r.1], r.2)

/-- The shared state the workers of a batch report into. -/
structure Batch where
  /-- The slice `results`. -/
  results : List (List GoString)
  /-- The content of the buffered channel `errChan`, oldest first. -/
  errChan : List GoError

/-- The report of worker `idx`: an error goes to the channel, a result to slot `idx`. -/
def report (h : Host) (execs : Nat → Exec) (relevances : List GoString)
    (resultsType pathQna : GoString) (b : Batch) (idx : Nat) : Batch :=
  match relevances[idx]? with
  | none => b
  | some rel =>
    match worker h (execs idx) resultsType rel pathQna with
    | (_, some e) => { b with errChan := b.errChan ++ [e] }
    | (res, none) => { b with results := b.results.set idx res }

/-- Go `evaluateRelevancesArrayToMany`.  `execs i` is the behaviour of the process
that worker `i` launches, `order` the order in which the workers report (a
permutation of the indices); the first component is `none` for a nil slice. -/
def evaluateRelevancesArrayToMany (h : Host) (execs : Nat → Exec) (order : List Nat)
    (relevances : List GoString) (resultsType pathQna : GoString) :
    Option (List (List GoString)) × Option GoError :=
  if relevances.length = 0 then (none, some (str "relevances list is empty"))
  else
    match (if pathQna = [] then getQnaPath h else (pathQna, none)) with
    | (_, some e) => (none, some e)
    | (pathQna, none) =>
      let start : Batch := ⟨List.replicate relevances.length [], []⟩
      let final := order.foldl (report h execs relevances resultsType pathQna) start
      match final.errChan with
      | e :: _ => (none, some e)
      | [] => (some final.results, none)

/-! ## Names for parts of the functions above -/

/-- The string that evaluateRelevanceRawStdin hands to `io.WriteString`: the query without
a leading `Q: `, then a line feed. -/
def stdinPayload (relevance : GoString) : GoString :=
  (if HasPrefix relevance (str "Q: ") then relevance.drop 3 else relevance) ++ str "\n"

/-- The evaluator path a call works with: the one passed in, or the located one when the
empty string is passed in. -/
def resolvePath (h : Host) (pathQna : GoString) : GoString × Option GoError :=
  if pathQna = [] then getQnaPath h else (pathQna, none)

/-- The predicate of the locator: the path exists (`os.Stat` succeeds) and isExecutable
accepts it. -/
def usable (h : Host) (path : GoString) : Bool :=
  (h.stat path).isSome && isExecutable h path

/-- A Linux host run by root on which only `qna.exe`, the last candidate, exists, as an
executable regular file. -/
def lastOnlyHost : Host :=
  ⟨str "linux", 0, fun p => if p = str "qna.exe" then some ⟨false, 0o755⟩ else none,
    fun _ _ => none⟩

/-- A Linux host run by root on which no path exists. -/
def linuxHost : Host := ⟨str "linux", 0, fun _ => none, fun _ _ => none⟩

/-- A process that starts, whatever the path, and ends the race as `r`. -/
def fixedExec (r : Race) : Exec := ⟨fun _ => none, fun _ => none, fun _ _ => r⟩

/-- An evaluator that prints `A: 1`, exits with status zero at once, and leaves a background
child that keeps its standard output open beyond the timer. -/
def lingeringChild : Process := ⟨0, true, false, str "A: 1\n", [], 5⟩

/-- The same evaluator without the child: its pipes close when it exits. -/
def promptProcess : Process := ⟨0, true, true, str "A: 1\n", [], 5⟩

/-- What the Scanner makes of the pieces between line feeds when none is over-long: an
empty last piece is no token, and a token does not include the carriage return of its
ending. -/
def finishLines (segs : List GoString) : List GoString :=
  (if segs.getLast? = some [] then segs.dropLast else segs).map dropCR

/-! ## Reference definitions, following the specification -/

/-- The contribution of one line: the remainder after the combined marker, else the
remainder after the answer marker, else nothing. -/
def specAnswer (line : GoString) : Option GoString :=
  if HasPrefix line (str "Q: A: ") then some (line.drop (str "Q: A: ").length)
  else if HasPrefix line (str "A: ") then some (line.drop (str "A: ").length)
  else none

/-- Every line ending of the specification (CR LF, bare CR, bare LF) written as one LF. -/
def normalizeEndings : GoString → GoString
  | [] => []
  | b :: rest =>
    if b = CR then
      match rest with
      | [] => [LF]
      | c :: rest2 =>
        if c = LF then LF :: normalizeEndings rest2 else LF :: normalizeEndings (c :: rest2)
    else b :: normalizeEndings rest

/-- The lines of a text as the specification splits it: on any line ending convention,
bare LF, bare CR or CR LF. -/
def specLines (text : GoString) : List GoString :=
  (normalizeEndings text).splitOn LF

/-- A line of `n` bytes `x` followed by a line feed and the text `rest`. -/
def longLine (n : Nat) (rest : GoString) : GoString :=
  List.replicate n 120 ++ LF :: rest

/-- The answer list of the specification: walk the lines in order, keep the contributions. -/
def specParse (text : GoString) : List GoString :=
  (specLines text).filterMap specAnswer

/-- Lines each followed by the terminator `sep`. -/
def terminated (sep : GoString) (lines : List GoString) : GoString :=
  lines.flatMap (fun l => l ++ sep)


/-! ## Scanner lemmas -/

theorem foldl_answers (tokens : List GoString) (acc : List GoString) :
    tokens.foldl
      (fun results line =>
        if HasPrefix line (str "Q: A: ") then results ++ [TrimPrefix line (str "Q: A: ")]
        else if HasPrefix line (str "A: ") then results ++ [TrimPrefix line (str "A: ")]
        else results) acc = acc ++ tokens.filterMap specAnswer := by
  induction tokens generalizing acc with
  | nil => simp
  | cons t ts ih =>
    rw [List.foldl_cons, ih]
    by_cases h1 : HasPrefix t (str "Q: A: ") = true
    · simp [specAnswer, TrimPrefix, h1]
    · by_cases h2 : HasPrefix t (str "A: ") = true
      · simp [specAnswer, TrimPrefix, h1, h2]
      · simp [specAnswer, h1, h2]

theorem parse_eq_filterMap (text : GoString) :
    parseRawResultArray text = (scanTokens [] text).filterMap specAnswer := by
  unfold parseRawResultArray
  rw [foldl_answers]; simp

theorem scan_line (s : GoString) (hs : LF ∉ s) (t : GoString) :
    ∀ cur : GoString, cur.length < MaxScanTokenSize →
      scanTokens cur (s ++ LF :: t) =
        if (cur ++ s).length < MaxScanTokenSize then dropCR (cur ++ s) :: scanTokens [] t else [] := by
  induction s with
  | nil => intro cur hc; simp [scanTokens, hc]
  | cons b s ih =>
    intro cur hc
    have hb : b ≠ LF := fun h => hs (by simp [h])
    have hs2 : LF ∉ s := fun h => hs (by simp [h])
    simp only [List.cons_append, scanTokens, hb, if_false, List.append_eq]
    by_cases hg : MaxScanTokenSize ≤ cur.length + 1
    · have hlen : ¬ (cur ++ b :: s).length < MaxScanTokenSize := by
        rw [List.length_append, List.length_cons]; omega
      rw [if_pos hg, if_neg hlen]
    · rw [if_neg hg, ih hs2 (cur ++ [b]) (by rw [List.length_append, List.length_singleton]; omega)]
      simp

theorem scan_last (s : GoString) (hs : LF ∉ s) :
    ∀ cur : GoString, cur.length < MaxScanTokenSize →
      scanTokens cur s =
        if (cur ++ s).length < MaxScanTokenSize then
          (if cur ++ s = [] then [] else [dropCR (cur ++ s)]) else [] := by
  induction s with
  | nil => intro cur hc; simp [scanTokens, hc]
  | cons b s ih =>
    intro cur hc
    have hb : b ≠ LF := fun h => hs (by simp [h])
    have hs2 : LF ∉ s := fun h => hs (by simp [h])
    simp only [scanTokens, hb, if_false]
    by_cases hg : MaxScanTokenSize ≤ cur.length + 1
    · have hlen : ¬ (cur ++ b :: s).length < MaxScanTokenSize := by
        rw [List.length_append, List.length_cons]; omega
      rw [if_pos hg, if_neg hlen]
    · rw [if_neg hg, ih hs2 (cur ++ [b]) (by rw [List.length_append, List.length_singleton]; omega)]
      simp

/-- The pieces of a text are never an empty list. -/
theorem splitOn_cons_exists (text : GoString) :
    ∃ s0 ss, text.splitOn LF = s0 :: ss := by
  have h := List.splitOnP_ne_nil (fun b => b == LF) text
  unfold List.splitOn
  cases hS : List.splitOnP (fun b => b == LF) text with
  | nil => exact absurd hS h
  | cons s0 ss => exact ⟨s0, ss, rfl⟩

theorem finishLines_cons (c : GoString) (s : GoString) (ss : List GoString) :
    finishLines (c :: s :: ss) = dropCR c :: finishLines (s :: ss) := by
  unfold finishLines
  by_cases h : (s :: ss).getLast? = some []
  · have h2 : (c :: s :: ss).getLast? = some [] := by simpa using h
    rw [if_pos h, if_pos h2]; simp
  · have h2 : ¬ (c :: s :: ss).getLast? = some [] := by simpa using h
    rw [if_neg h, if_neg h2]; simp

/-- With no over-long line the scanner delivers the lines of the text. -/
theorem scan_eq_lines (text : GoString) :
    ∀ cur : GoString,
      (∀ s ∈ (text.splitOn LF).modifyHead (fun s => cur ++ s), s.length < MaxScanTokenSize) →
      scanTokens cur text = finishLines ((text.splitOn LF).modifyHead (fun s => cur ++ s)) := by
  induction text with
  | nil =>
    intro cur _
    by_cases hc : cur = []
    · subst hc; simp [scanTokens, finishLines]
    · simp [scanTokens, finishLines, hc]
  | cons b rest ih =>
    intro cur hlen
    obtain ⟨s0, ss, hS⟩ := splitOn_cons_exists rest
    have hS2 : List.splitOnP (fun x => x == LF) rest = s0 :: ss := hS
    by_cases hb : b = LF
    · subst hb
      have hsp : (LF :: rest).splitOn LF = [] :: s0 :: ss := by
        unfold List.splitOn; rw [List.splitOnP_cons, hS2]; simp
      rw [hsp] at hlen ⊢
      simp only [List.modifyHead_cons, List.append_nil] at hlen ⊢
      rw [finishLines_cons, scanTokens, if_pos rfl]
      have h0 := ih [] (by
        intro s hs
        rw [hS] at hs
        simp only [List.modifyHead_cons, List.nil_append] at hs
        exact hlen s (List.mem_cons_of_mem _ hs))
      rw [h0, hS]; simp
    · have hsp : (b :: rest).splitOn LF = (b :: s0) :: ss := by
        unfold List.splitOn; rw [List.splitOnP_cons, hS2]; simp [hb]
      rw [hsp] at hlen ⊢
      simp only [List.modifyHead_cons] at hlen ⊢
      have hl0 := hlen (cur ++ b :: s0) (List.mem_cons_self _ _)
      rw [List.length_append, List.length_cons] at hl0
      rw [scanTokens, if_neg hb, if_neg (by omega)]
      have h1 := ih (cur ++ [b]) (by
        intro s hs
        rw [hS] at hs
        simp only [List.modifyHead_cons, List.append_assoc, List.singleton_append] at hs
        exact hlen s hs)
      rw [h1, hS]; simp

/-! ## C1: the parser and a line beyond the Scanner buffer -/

theorem str_QA : str "Q: A: " = [81, 58, 32, 65, 58, 32] := by decide

theorem str_A : str "A: " = [65, 58, 32] := by decide

/-- A line that starts with the byte `x` carries no marker. -/
theorem specAnswer_x (s : GoString) : specAnswer (120 :: s) = none := by
  simp [specAnswer, HasPrefix, str_QA, str_A]

theorem dropCR_replicate_x (n : Nat) : dropCR (List.replicate n 120) = List.replicate n 120 := by
  cases n with
  | zero => simp [dropCR]
  | succ n =>
    have h : (List.replicate (n + 1) (120 : UInt8)).getLast? ≠ some CR := by
      rw [List.replicate_succ', List.getLast?_append]
      simp [CR]
    simp [dropCR, h]

theorem LF_not_mem_replicate_x (n : Nat) : LF ∉ List.replicate n (120 : UInt8) := by
  intro h
  have := (List.mem_replicate.mp h).2
  exact absurd this (by decide)

/-- A line of at least `MaxScanTokenSize` bytes ends the scan with no token. -/
theorem parse_longLine (n : Nat) (hn : MaxScanTokenSize ≤ n) (rest : GoString) :
    parseRawResultArray (longLine n rest) = [] := by
  rw [parse_eq_filterMap, longLine,
    scan_line _ (LF_not_mem_replicate_x n) rest [] (by decide)]
  have : ¬ ([] ++ List.replicate n (120 : UInt8)).length < MaxScanTokenSize := by
    simp only [List.nil_append, List.length_replicate]; omega
  rw [if_neg this]; rfl

theorem normalizeEndings_LF (rest : GoString) :
    normalizeEndings (LF :: rest) = LF :: normalizeEndings rest := by
  rw [normalizeEndings.eq_def]
  simp only [if_neg (show ¬ LF = CR by decide)]

theorem normalizeEndings_x (n : Nat) (t : GoString) :
    normalizeEndings (List.replicate n 120 ++ t) = List.replicate n 120 ++ normalizeEndings t := by
  induction n with
  | zero => rfl
  | succ n ih =>
    rw [List.replicate_succ, List.cons_append, normalizeEndings.eq_def]
    simp only [if_neg (show ¬ (120 : UInt8) = CR by decide)]
    rw [ih, List.cons_append]

/-- The specification's lines of a text that starts with a line of `x` bytes. -/
theorem specLines_longLine (n : Nat) (rest : GoString) :
    specLines (longLine n rest) = List.replicate n 120 :: specLines rest := by
  unfold specLines longLine List.splitOn
  rw [normalizeEndings_x, normalizeEndings_LF]
  apply List.splitOnP_first
  · intro b hb
    have := (List.mem_replicate.mp hb).2
    subst this; decide
  · decide

/-- The specification's answers do not change when a line of `x` bytes is put in front. -/
theorem specParse_longLine (n : Nat) (rest : GoString) :
    specParse (longLine (n + 1) rest) = specParse rest := by
  unfold specParse
  rw [specLines_longLine, List.replicate_succ, List.filterMap_cons, specAnswer_x]

/-- The regular expression splitter passes over bytes that are no line ending. -/
theorem reSplit_x (n : Nat) (t : GoString) :
    ∀ cur : GoString,
      NoConcurrency.reSplit cur (List.replicate n 120 ++ t) =
        NoConcurrency.reSplit (cur ++ List.replicate n 120) t := by
  induction n with
  | zero => intro cur; simp
  | succ n ih =>
    intro cur
    rw [List.replicate_succ, List.cons_append, NoConcurrency.reSplit.eq_def]
    simp only [if_neg (show ¬ (120 : UInt8) = CR by decide),
      if_neg (show ¬ (120 : UInt8) = LF by decide)]
    rw [ih]
    simp

theorem reSplit_LF (cur rest : GoString) :
    NoConcurrency.reSplit cur (LF :: rest) = cur :: NoConcurrency.reSplit [] rest := by
  rw [NoConcurrency.reSplit.eq_def]
  simp only [if_neg (show ¬ LF = CR by decide), if_true]

theorem reSplit_CRLF (cur rest : GoString) :
    NoConcurrency.reSplit cur (CR :: LF :: rest) = cur :: NoConcurrency.reSplit [] rest := by
  rw [NoConcurrency.reSplit.eq_def]
  simp only [if_true]

/-- A piece that starts with the byte `x` adds nothing to the answers of the sibling parser. -/
theorem noConcurrency_parse_cons_x (s : GoString) (pieces : List GoString) :
    (((120 : UInt8) :: s) :: pieces).foldl
      (fun resultsArray resultRaw =>
        if HasPrefix resultRaw (str "A: ") then resultsArray ++ [resultRaw.drop (str "A: ").length]
        else resultsArray) [] =
    pieces.foldl
      (fun resultsArray resultRaw =>
        if HasPrefix resultRaw (str "A: ") then resultsArray ++ [resultRaw.drop (str "A: ").length]
        else resultsArray) [] := by
  rw [List.foldl_cons]
  have hx : HasPrefix (120 :: s) (str "A: ") = false := by
    simp [HasPrefix, str_A]
  rw [hx]
  rfl

/-- The sibling parser has no line length limit: a line of `x` bytes with an LF ending in
front changes nothing. -/
theorem noConcurrency_parse_longLine (n : Nat) (rest : GoString) :
    NoConcurrency.parseRawResultArray (longLine (n + 1) rest) =
      NoConcurrency.parseRawResultArray rest := by
  unfold NoConcurrency.parseRawResultArray longLine
  rw [reSplit_x, reSplit_LF, List.nil_append, List.replicate_succ, noConcurrency_parse_cons_x]

/-- The same with a CR LF ending. -/
theorem noConcurrency_parse_longLine_CRLF (n : Nat) (rest : GoString) :
    NoConcurrency.parseRawResultArray (List.replicate (n + 1) 120 ++ CR :: LF :: rest) =
      NoConcurrency.parseRawResultArray rest := by
  unfold NoConcurrency.parseRawResultArray
  rw [reSplit_x, reSplit_CRLF, List.nil_append, List.replicate_succ, noConcurrency_parse_cons_x]

/-- With no line of 65536 bytes or more, parseRawResultArray keeps, in order, the
contributions of the tokens the Scanner delimits. -/
theorem parse_of_short_lines (text : GoString)
    (hshort : ∀ s ∈ text.splitOn LF, s.length < MaxScanTokenSize) :
    parseRawResultArray text = (finishLines (text.splitOn LF)).filterMap specAnswer := by
  have hid : ∀ l : List GoString, l.modifyHead (fun s => [] ++ s) = l := by
    intro l; cases l <;> simp
  rw [parse_eq_filterMap]
  have h := scan_eq_lines text [] (by rw [hid]; exact hshort)
  rw [h, hid]

/-- Claim C1 at the text made of a line of 65536 bytes `x`, a line feed and the line `A: a`:
walking the lines as the claim says yields the answer `a`, and so does parseRawResultArray of
evaluate_relevance_no_concurrency.go, while parseRawResultArray of evaluate_relevance.go
returns nothing, the Scanner having stopped at the first line. -/
theorem C1_long_line_drops_answers :
    parseRawResultArray (longLine 65536 (str "A: a")) = [] ∧
      specParse (longLine 65536 (str "A: a")) = [str "a"] ∧
      NoConcurrency.parseRawResultArray (longLine 65536 (str "A: a")) = [str "a"] := by
  refine ⟨parse_longLine 65536 (by decide) _, ?_, ?_⟩
  · rw [specParse_longLine 65535 (str "A: a")]
    decide
  · rw [noConcurrency_parse_longLine 65535 (str "A: a")]
    decide

/-! ## C5 and C6: line endings -/

theorem Join_cons_cons (a b : GoString) (l : List GoString) (sep : GoString) :
    Join (a :: b :: l) sep = a ++ (sep ++ Join (b :: l) sep) := by
  simp [Join, List.intercalate, List.intersperse]

theorem Join_singleton (a : GoString) (sep : GoString) : Join [a] sep = a := by
  simp [Join, List.intercalate, List.intersperse]

theorem terminated_cons (sep a : GoString) (l : List GoString) :
    terminated sep (a :: l) = a ++ (sep ++ terminated sep l) := by
  simp [terminated]

theorem dropCR_of_not_mem (a : GoString) (h : CR ∉ a) : dropCR a = a := by
  unfold dropCR
  rw [if_neg]
  intro hl
  exact h (List.mem_of_getLast?_eq_some hl)

theorem dropCR_append_CR (a : GoString) : dropCR (a ++ [CR]) = a := by
  simp [dropCR]

/-- Scanning one line that ends in CR LF and one that ends in LF. -/
theorem scan_crlf_line (a t1 t2 : GoString) (hcr : CR ∉ a) (hlf : LF ∉ a)
    (hlen : a.length ≠ MaxScanTokenSize - 1)
    (ht : scanTokens [] t1 = scanTokens [] t2) :
    scanTokens [] (a ++ (str "\r\n" ++ t1)) = scanTokens [] (a ++ (str "\n" ++ t2)) := by
  have e1 : a ++ (str "\r\n" ++ t1) = (a ++ [CR]) ++ LF :: t1 := by
    have : str "\r\n" = [CR, LF] := by decide
    rw [this]; simp
  have e2 : a ++ (str "\n" ++ t2) = a ++ LF :: t2 := by
    have : str "\n" = [LF] := by decide
    rw [this]; simp
  have hlf2 : LF ∉ a ++ [CR] := by
    intro h
    rcases List.mem_append.mp h with h | h
    · exact hlf h
    · exact absurd (List.mem_singleton.mp h) (by decide)
  rw [e1, e2, scan_line _ hlf2 t1 [] (by decide), scan_line _ hlf t2 [] (by decide)]
  simp only [List.nil_append, List.length_append, List.length_singleton]
  rw [dropCR_append_CR, dropCR_of_not_mem a hcr, ht]
  have hM : MaxScanTokenSize = 65536 := rfl
  rw [hM] at hlen ⊢
  by_cases h : a.length < 65535
  · rw [if_pos (by omega), if_pos (by omega)]
  · rw [if_neg (by omega), if_neg (by omega)]

theorem scan_joined (lines : List GoString)
    (hclean : ∀ l ∈ lines, CR ∉ l ∧ LF ∉ l)
    (hlen : ∀ l ∈ lines, l.length ≠ MaxScanTokenSize - 1) :
    scanTokens [] (Join lines (str "\r\n")) = scanTokens [] (Join lines (str "\n")) := by
  induction lines with
  | nil => rfl
  | cons a l ih =>
    cases l with
    | nil => rw [Join_singleton, Join_singleton]
    | cons b l =>
      rw [Join_cons_cons, Join_cons_cons]
      exact scan_crlf_line a _ _ (hclean a (List.mem_cons_self _ _)).1
        (hclean a (List.mem_cons_self _ _)).2 (hlen a (List.mem_cons_self _ _))
        (ih (fun x hx => hclean x (List.mem_cons_of_mem _ hx))
          (fun x hx => hlen x (List.mem_cons_of_mem _ hx)))

theorem scan_terminated (lines : List GoString)
    (hclean : ∀ l ∈ lines, CR ∉ l ∧ LF ∉ l)
    (hlen : ∀ l ∈ lines, l.length ≠ MaxScanTokenSize - 1) :
    scanTokens [] (terminated (str "\r\n") lines) = scanTokens [] (terminated (str "\n") lines) := by
  induction lines with
  | nil => rfl
  | cons a l ih =>
    rw [terminated_cons, terminated_cons]
    exact scan_crlf_line a _ _ (hclean a (List.mem_cons_self _ _)).1
      (hclean a (List.mem_cons_self _ _)).2 (hlen a (List.mem_cons_self _ _))
      (ih (fun x hx => hclean x (List.mem_cons_of_mem _ hx))
        (fun x hx => hlen x (List.mem_cons_of_mem _ hx)))

/-- Parsing a line of `n` bytes `x` that fits the buffer, followed by more text. -/
theorem parse_fitting_longLine (n : Nat) (hn : n + 1 < MaxScanTokenSize) (rest : GoString) :
    parseRawResultArray (longLine (n + 1) rest) = parseRawResultArray rest := by
  rw [parse_eq_filterMap, parse_eq_filterMap, longLine,
    scan_line _ (LF_not_mem_replicate_x (n + 1)) rest [] (by decide)]
  have hfit : ([] ++ List.replicate (n + 1) (120 : UInt8)).length < MaxScanTokenSize := by
    simp only [List.nil_append, List.length_replicate]; exact hn
  rw [if_pos hfit, List.nil_append, dropCR_replicate_x, List.replicate_succ,
    List.filterMap_cons, specAnswer_x]

/-- A line of `x` bytes one byte short of the buffer size, followed by the line `A: b`:
no CR, no LF, one answer with LF endings, none with CR LF endings. -/
theorem crlf_boundary (n : Nat) (hn : n + 2 = MaxScanTokenSize) :
    (∀ l ∈ [List.replicate (n + 1) 120, str "A: b"], CR ∉ l ∧ LF ∉ l) ∧
      parseRawResultArray (Join [List.replicate (n + 1) 120, str "A: b"] (str "\n")) = [str "b"] ∧
      parseRawResultArray (Join [List.replicate (n + 1) 120, str "A: b"] (str "\r\n")) = [] := by
  refine ⟨?_, ?_, ?_⟩
  · intro l hl
    rcases List.mem_cons.mp hl with h | h
    · subst h
      constructor
      · intro hm
        exact absurd (List.mem_replicate.mp hm).2 (by decide)
      · exact LF_not_mem_replicate_x _
    · rw [List.mem_singleton.mp h]; decide
  · have e : Join [List.replicate (n + 1) 120, str "A: b"] (str "\n")
        = longLine (n + 1) (str "A: b") := by
      rw [Join_cons_cons, Join_singleton]; rfl
    rw [e, parse_fitting_longLine n (by omega)]
    decide
  · have e : Join [List.replicate (n + 1) 120, str "A: b"] (str "\r\n")
        = (List.replicate (n + 1) 120 ++ [CR]) ++ LF :: str "A: b" := by
      rw [Join_cons_cons, Join_singleton]
      have : str "\r\n" = [CR, LF] := by decide
      rw [this, List.append_assoc]; rfl
    have hlf : LF ∉ List.replicate (n + 1) (120 : UInt8) ++ [CR] := by
      intro h
      rcases List.mem_append.mp h with h | h
      · exact LF_not_mem_replicate_x _ h
      · exact absurd (List.mem_singleton.mp h) (by decide)
    rw [e, parse_eq_filterMap, scan_line _ hlf _ [] (by decide)]
    have hbig : ¬ ([] ++ (List.replicate (n + 1) (120 : UInt8) ++ [CR])).length
        < MaxScanTokenSize := by
      simp only [List.nil_append, List.length_append, List.length_replicate,
        List.length_singleton]
      omega
    rw [if_neg hbig]; rfl

/-- The sibling parser on the same two lines: the answer `b` with either ending. -/
theorem noConcurrency_boundary (n : Nat) :
    NoConcurrency.parseRawResultArray
        (Join [List.replicate (n + 1) 120, str "A: b"] (str "\n")) = [str "b"] ∧
      NoConcurrency.parseRawResultArray
        (Join [List.replicate (n + 1) 120, str "A: b"] (str "\r\n")) = [str "b"] := by
  constructor
  · have e : Join [List.replicate (n + 1) 120, str "A: b"] (str "\n")
        = longLine (n + 1) (str "A: b") := by
      rw [Join_cons_cons, Join_singleton]; rfl
    rw [e, noConcurrency_parse_longLine]
    decide
  · have e : Join [List.replicate (n + 1) 120, str "A: b"] (str "\r\n")
        = List.replicate (n + 1) 120 ++ CR :: LF :: str "A: b" := by
      rw [Join_cons_cons, Join_singleton]; rfl
    rw [e, noConcurrency_parse_longLine_CRLF]
    decide

/-- Off the boundary the two endings agree: for lines without CR and LF of which none is
exactly 65535 bytes long, parseRawResultArray gives the same answers for the lines joined
(or each terminated) with CR LF and with LF. -/
theorem crlf_invariant_off_boundary (lines : List GoString)
    (hclean : ∀ l ∈ lines, CR ∉ l ∧ LF ∉ l)
    (hlen : ∀ l ∈ lines, l.length ≠ 65535) :
    parseRawResultArray (Join lines (str "\r\n")) = parseRawResultArray (Join lines (str "\n")) ∧
      parseRawResultArray (terminated (str "\r\n") lines) =
        parseRawResultArray (terminated (str "\n") lines) := by
  constructor
  · rw [parse_eq_filterMap, parse_eq_filterMap, scan_joined lines hclean hlen]
  · rw [parse_eq_filterMap, parse_eq_filterMap, scan_terminated lines hclean hlen]

/-- Claim C5 at the two lines `x...x` (65535 bytes) and `A: b`, which hold no CR and no LF:
joined with LF they parse to the answer `b`, joined with CR LF parseRawResultArray of
evaluate_relevance.go returns nothing, the first line then filling the 65536 bytes at which
the Scanner stops; parseRawResultArray of evaluate_relevance_no_concurrency.go returns the
answer `b` with either ending. -/
theorem C5_crlf_boundary_drops_answers :
    (∀ l ∈ [List.replicate 65535 120, str "A: b"], CR ∉ l ∧ LF ∉ l) ∧
      parseRawResultArray (Join [List.replicate 65535 120, str "A: b"] (str "\n")) = [str "b"] ∧
      parseRawResultArray (Join [List.replicate 65535 120, str "A: b"] (str "\r\n")) = [] ∧
      NoConcurrency.parseRawResultArray
        (Join [List.replicate 65535 120, str "A: b"] (str "\n")) = [str "b"] ∧
      NoConcurrency.parseRawResultArray
        (Join [List.replicate 65535 120, str "A: b"] (str "\r\n")) = [str "b"] :=
  ⟨(crlf_boundary 65534 (by decide)).1, (crlf_boundary 65534 (by decide)).2.1,
    (crlf_boundary 65534 (by decide)).2.2, (noConcurrency_boundary 65534).1,
    (noConcurrency_boundary 65534).2⟩

/-- Claim C6 at the text `A: a`, CR, `A: b`: parseRawResultArray of evaluate_relevance.go
returns the single entry `a`, CR, `A: b`, where the same text with LF gives the entries `a`
and `b`; parseRawResultArray of evaluate_relevance_no_concurrency.go splits at the bare CR. -/
theorem C6_bare_CR_not_split :
    parseRawResultArray (str "A: a\rA: b") = [str "a\rA: b"] ∧
      parseRawResultArray (str "A: a\nA: b") = [str "a", str "b"] ∧
      NoConcurrency.parseRawResultArray (str "A: a\rA: b") = [str "a", str "b"] := by
  decide

/-! ## C4: the trailer and the note -/

theorem digit_ne_LF (n : Nat) (hn : n < 10) : UInt8.ofNat n + 48 ≠ LF := by
  interval_cases n <;> decide

theorem fmtFracLoop_noLF (n : Nat) :
    ∀ (buf : GoString) (v : Nat) (print : Bool), LF ∉ buf →
      LF ∉ (fmtFracLoop n buf v print).1 := by
  induction n with
  | zero => intro buf v print h; exact h
  | succ n ih =>
    intro buf v print h
    rw [fmtFracLoop]
    apply ih
    split
    · intro hm
      rcases List.mem_cons.mp hm with h1 | h1
      · exact digit_ne_LF (v % 10) (Nat.mod_lt _ (by decide)) h1.symm
      · exact h h1
    · exact h

theorem fmtFrac_noLF (buf : GoString) (v prec : Nat) (h : LF ∉ buf) :
    LF ∉ (fmtFrac buf v prec).1 := by
  unfold fmtFrac
  have h1 := fmtFracLoop_noLF prec buf v false h
  dsimp only
  split
  · intro hm
    rcases List.mem_cons.mp hm with h2 | h2
    · exact absurd h2 (by decide)
    · exact h1 h2
  · exact h1

theorem fmtIntLoop_noLF (n : Nat) :
    ∀ (buf : GoString) (v : Nat), LF ∉ buf → LF ∉ fmtIntLoop n buf v := by
  induction n with
  | zero => intro buf v h; exact h
  | succ n ih =>
    intro buf v h
    rw [fmtIntLoop]
    split
    · apply ih
      intro hm
      rcases List.mem_cons.mp hm with h1 | h1
      · exact digit_ne_LF (v % 10) (Nat.mod_lt _ (by decide)) h1.symm
      · exact h h1
    · exact h

theorem fmtInt_noLF (buf : GoString) (v : Nat) (h : LF ∉ buf) : LF ∉ fmtInt buf v := by
  unfold fmtInt
  split
  · intro hm
    rcases List.mem_cons.mp hm with h1 | h1
    · exact absurd h1 (by decide)
    · exact h h1
  · exact fmtIntLoop_noLF v buf v h

theorem cons_noLF (b : UInt8) (buf : GoString) (hb : b ≠ LF) (h : LF ∉ buf) : LF ∉ b :: buf := by
  intro hm
  rcases List.mem_cons.mp hm with h1 | h1
  · exact hb h1.symm
  · exact h h1

/-- The rendering of a duration holds no line feed. -/
theorem durationString_noLF (d : Int) : LF ∉ durationString d := by
  have hbody : ∀ body : GoString, LF ∉ body → LF ∉ (if d < 0 then 45 :: body else body) := by
    intro body hb
    split
    · exact cons_noLF 45 body (by decide) hb
    · exact hb
  unfold durationString
  apply hbody
  split
  · split
    · decide
    · split
      · exact fmtInt_noLF _ _ (fmtFrac_noLF _ _ _ (by decide))
      · split
        · exact fmtInt_noLF _ _ (fmtFrac_noLF _ _ _ (by decide))
        · exact fmtInt_noLF _ _ (fmtFrac_noLF _ _ _ (by decide))
  · have h1 : LF ∉ fmtInt (fmtFrac (str "s") d.natAbs 9).1 ((fmtFrac (str "s") d.natAbs 9).2 % 60) :=
      fmtInt_noLF _ _ (fmtFrac_noLF _ _ _ (by decide))
    dsimp only
    split
    · have h2 := fmtInt_noLF _ ((fmtFrac (str "s") d.natAbs 9).2 / 60 % 60)
        (cons_noLF 109 _ (by decide) h1)
      split
      · exact fmtInt_noLF _ _ (cons_noLF 104 _ (by decide) h2)
      · exact h2
    · exact h1

/-- The run in which the process starts and `cmd.Wait()` returns a nil error first. -/
theorem run_success (h : Host) (x : Exec) (relevance pathQna p stdout stderr : GoString)
    (elapsed : Int)
    (hpriv : ¬ (h.goos = str "darwin" ∧ h.euid ≠ 0))
    (hpath : resolvePath h pathQna = (p, none))
    (hpipe : x.stdinPipe p = none) (hstart : x.start p = none)
    (hrace : x.race p (stdinPayload relevance) = Race.done none stdout stderr elapsed) :
    evaluateRelevanceRawStdin h x relevance pathQna =
      ⟨annotate stdout elapsed, none, some (stdinPayload relevance), false,
        if stderr ≠ [] then [str "Error: " ++ stderr ++ str "\n"] else []⟩ := by
  unfold resolvePath at hpath
  unfold stdinPayload at hrace
  unfold evaluateRelevanceRawStdin stdinPayload
  simp only [if_neg hpriv, hpath, hpipe, hstart, hrace, fileWriteOutput]
  rfl

/-- After a text that is empty or ends in a line feed, scanning goes on as from the start,
unless it has stopped. -/
theorem scan_append (s t : GoString) :
    ∀ cur : GoString, (s = [] ∧ cur = []) ∨ s.getLast? = some LF →
      scanTokens cur (s ++ t) = scanTokens cur s ∨
        scanTokens cur (s ++ t) = scanTokens cur s ++ scanTokens [] t := by
  induction s with
  | nil =>
    intro cur h
    rcases h with ⟨_, hc⟩ | h
    · subst hc; right; simp [scanTokens]
    · simp at h
  | cons b s ih =>
    intro cur _h
    by_cases hb : b = LF
    · subst hb
      have hs2 : (s = [] ∧ ([] : GoString) = []) ∨ s.getLast? = some LF := by
        cases s with
        | nil => left; exact ⟨rfl, rfl⟩
        | cons c s2 =>
          right
          rcases _h with ⟨h1, _⟩ | h1
          · exact absurd h1 (by simp)
          · simpa using h1
      simp only [List.cons_append, scanTokens, if_true, List.append_eq]
      rcases ih [] hs2 with h1 | h1
      · left; rw [h1]
      · right; rw [h1]
    · have hs2 : (s = [] ∧ cur ++ [b] = []) ∨ s.getLast? = some LF := by
        cases s with
        | nil =>
          rcases _h with ⟨h1, _⟩ | h1
          · exact absurd h1 (by simp)
          · simp at h1; exact absurd h1 hb
        | cons c s2 =>
          right
          rcases _h with ⟨h1, _⟩ | h1
          · exact absurd h1 (by simp)
          · simpa using h1
      by_cases hg : MaxScanTokenSize ≤ cur.length + 1
      · left
        simp only [List.cons_append, scanTokens, if_neg hb, List.append_eq, if_pos hg]
      · simp only [List.cons_append, scanTokens, if_neg hb, List.append_eq, if_neg hg]
        exact ih (cur ++ [b]) hs2

theorem dropCR_append_ne (a : GoString) (b : UInt8) (hb : b ≠ CR) :
    dropCR (a ++ [b]) = a ++ [b] := by
  unfold dropCR
  rw [if_neg]
  rw [List.getLast?_append]
  simpa using fun h => hb h

/-- A line that starts with the byte `T` carries no marker. -/
theorem specAnswer_T (s : GoString) : specAnswer (84 :: s) = none := by
  simp [specAnswer, HasPrefix, str_QA, str_A]

set_option maxRecDepth 100000 in
/-- The note that may follow the trailer, or nothing. -/
theorem note_answers (note : GoString)
    (hnote : note = [] ∨ note = str
      "\nInfo: This error means a result was found, but it does not have a string representation.") :
    (scanTokens [] note).filterMap specAnswer = [] := by
  rcases hnote with h | h <;> subst h <;> decide

/-- The trailer line and what follows it contribute no answer. -/
theorem trailer_answers (d : Int) (note : GoString)
    (hnote : note = [] ∨ note = str
      "\nInfo: This error means a result was found, but it does not have a string representation.") :
    (scanTokens []
      ((str "Time Taken: " ++ durationString d ++ str " as measured by Go.\n") ++ note)).filterMap
        specAnswer = [] := by
  have e1 : str " as measured by Go.\n" = str " as measured by Go" ++ [46] ++ [LF] := by decide
  have e2 : str "Time Taken: " = 84 :: (str "Time Taken: ").tail := by decide
  have hlf : LF ∉ (str "Time Taken: " ++ durationString d ++ str " as measured by Go") ++ [46] := by
    intro h
    simp only [List.mem_append, List.mem_singleton] at h
    rcases h with ((h | h) | h) | h
    · exact absurd h (by decide)
    · exact durationString_noLF d h
    · exact absurd h (by decide)
    · exact absurd h (by decide)
  have e3 : (str "Time Taken: " ++ durationString d ++ str " as measured by Go.\n") ++ note =
      ((str "Time Taken: " ++ durationString d ++ str " as measured by Go") ++ [46]) ++ LF :: note := by
    rw [e1]; simp
  rw [e3, scan_line _ hlf note [] (by decide)]
  split
  · rw [List.nil_append, dropCR_append_ne _ _ (by decide), List.filterMap_cons,
      note_answers note hnote]
    rw [e2]
    simp only [List.cons_append]
    rw [specAnswer_T]
  · rfl

/-- What `annotate` appends to a text that is empty or ends in a line feed is invisible to the parser. -/
theorem parse_annotate (stdout : GoString) (elapsed : Int)
    (hnl : stdout = [] ∨ stdout.getLast? = some LF) :
    parseRawResultArray (annotate stdout elapsed) = parseRawResultArray stdout := by
  have key : ∀ note : GoString, (note = [] ∨ note = str
      "\nInfo: This error means a result was found, but it does not have a string representation.") →
      parseRawResultArray
        (stdout ++ ((str "Time Taken: " ++ durationString elapsed ++ str " as measured by Go.\n")
          ++ note)) = parseRawResultArray stdout := by
    intro note hnote
    rw [parse_eq_filterMap, parse_eq_filterMap]
    have hs : (stdout = [] ∧ ([] : GoString) = []) ∨ stdout.getLast? = some LF := by
      rcases hnl with h | h
      · exact Or.inl ⟨h, rfl⟩
      · exact Or.inr h
    rcases scan_append stdout _ [] hs with h | h
    · rw [h]
    · rw [h, List.filterMap_append, trailer_answers elapsed note hnote, List.append_nil]
  unfold annotate
  dsimp only
  split
  · have := key _ (Or.inr rfl)
    rw [← this]; simp
  · have := key [] (Or.inl rfl)
    rw [← this]; simp

/-- Claim C4, refuted as stated: when the captured standard output is `A: x` with no line feed
at its end, the trailer continues that line, and the answer extracted from the returned
text is `xTime Taken: 1.5s as measured by Go.`, not `x`. -/
theorem C4_counterexample :
    (evaluateRelevanceRawStdin linuxHost
        (fixedExec (Race.done none (str "A: x") [] 1500000000))
        (str "version of client") (str "qna")).err = none ∧
      parseRawResultArray
        (evaluateRelevanceRawStdin linuxHost
          (fixedExec (Race.done none (str "A: x") [] 1500000000))
          (str "version of client") (str "qna")).output
        = [str "xTime Taken: 1.5s as measured by Go."] ∧
      parseRawResultArray (str "A: x") = [str "x"] := by
  decide

/-- Claim C4, amended: for every captured standard output that is empty or ends in a line feed,
and every elapsed duration, the text evaluateRelevanceRawStdin returns is the standard output
followed by the trailer and, when the error text occurs in it, by the note, and
parseRawResultArray extracts from it the same answers as from the standard output alone. -/
theorem C4_trailer_excluded (h : Host) (x : Exec) (relevance pathQna p stdout stderr : GoString)
    (elapsed : Int)
    (hpriv : ¬ (h.goos = str "darwin" ∧ h.euid ≠ 0))
    (hpath : resolvePath h pathQna = (p, none))
    (hpipe : x.stdinPipe p = none) (hstart : x.start p = none)
    (hrace : x.race p (stdinPayload relevance) = Race.done none stdout stderr elapsed)
    (hnl : stdout = [] ∨ stdout.getLast? = some LF) :
    (evaluateRelevanceRawStdin h x relevance pathQna).err = none ∧
      (evaluateRelevanceRawStdin h x relevance pathQna).output = annotate stdout elapsed ∧
      parseRawResultArray (evaluateRelevanceRawStdin h x relevance pathQna).output =
        parseRawResultArray stdout := by
  rw [run_success h x relevance pathQna p stdout stderr elapsed hpriv hpath hpipe hstart hrace]
  exact ⟨rfl, rfl, parse_annotate stdout elapsed hnl⟩

theorem C4_trailer_excluded_witness :
    (str "A: x\nE: The operator \"string\" is not defined.\n" = [] ∨
        (str "A: x\nE: The operator \"string\" is not defined.\n").getLast? = some LF) ∧
      parseRawResultArray
        (evaluateRelevanceRawStdin linuxHost
          (fixedExec (Race.done none (str "A: x\nE: The operator \"string\" is not defined.\n")
            (str "warning") 1500000000))
          (str "version of client") (str "qna")).output =
        parseRawResultArray (str "A: x\nE: The operator \"string\" is not defined.\n") :=
  ⟨by decide,
    (C4_trailer_excluded linuxHost
      (fixedExec (Race.done none (str "A: x\nE: The operator \"string\" is not defined.\n")
        (str "warning") 1500000000))
      (str "version of client") (str "qna") (str "qna")
      (str "A: x\nE: The operator \"string\" is not defined.\n") (str "warning") 1500000000
      (by decide) (by decide) rfl rfl rfl (by decide)).2.2⟩

/-! ## C7 and C8: the submitted payload -/

/-- The run up to the launch of the writer goroutine. -/
theorem run_stdin (h : Host) (x : Exec) (relevance pathQna p : GoString)
    (hpriv : ¬ (h.goos = str "darwin" ∧ h.euid ≠ 0))
    (hpath : resolvePath h pathQna = (p, none))
    (hpipe : x.stdinPipe p = none) :
    (evaluateRelevanceRawStdin h x relevance pathQna).stdin = some (stdinPayload relevance) := by
  unfold resolvePath at hpath
  unfold evaluateRelevanceRawStdin stdinPayload
  simp only [if_neg hpriv, hpath, hpipe]
  cases x.start p with
  | some e => rfl
  | none =>
    dsimp only
    cases x.race p ((if HasPrefix relevance (str "Q: ") = true then List.drop 3 relevance
        else relevance) ++ str "\n") with
    | timer => rfl
    | done waitErr stdout stderr elapsed =>
      cases waitErr with
      | some e => rfl
      | none => simp [fileWriteOutput]

theorem HasPrefix_iff (s pre : GoString) : HasPrefix s pre = true ↔ ∃ t, s = pre ++ t := by
  unfold HasPrefix
  simp only [Bool.and_eq_true, decide_eq_true_eq]
  constructor
  · rintro ⟨_, h2⟩
    refine ⟨s.drop pre.length, ?_⟩
    conv_lhs => rw [← List.take_append_drop pre.length s]
    rw [h2]
  · rintro ⟨t, rfl⟩
    simp

/-- Claim C7, refuted as stated: for the query `version of client` the bytes written to the
standard input of the evaluator are `version of client` and a line feed, which do not begin
with `Q: `. -/
theorem C7_counterexample :
    (evaluateRelevanceRawStdin linuxHost (fixedExec Race.timer)
        (str "version of client") (str "qna")).stdin = some (str "version of client\n") ∧
      HasPrefix (str "version of client\n") (str "Q: ") = false := by
  decide


theorem HasPrefix_cons_cons (a p : UInt8) (s pre : GoString) :
    HasPrefix (a :: s) (p :: pre) = (decide (a = p) && HasPrefix s pre) := by
  unfold HasPrefix
  simp only [List.length_cons, List.take_succ_cons, List.cons.injEq, Nat.add_le_add_iff_right]
  by_cases h1 : a = p <;> by_cases h2 : pre.length ≤ s.length <;>
    by_cases h3 : List.take pre.length s = pre <;> simp [h1, h2, h3]

theorem HasPrefix_nil (s : GoString) : HasPrefix s [] = true := by
  simp [HasPrefix]

theorem HasPrefix_nil_cons (p : UInt8) (pre : GoString) : HasPrefix [] (p :: pre) = false := by
  simp [HasPrefix]

/-- A line feed appended to a text does not change whether a prefix without line feed is there. -/
theorem HasPrefix_append_LF (pre : GoString) (hpre : LF ∉ pre) :
    ∀ s : GoString, HasPrefix (s ++ [LF]) pre = HasPrefix s pre := by
  induction pre with
  | nil => intro s; rw [HasPrefix_nil, HasPrefix_nil]
  | cons p pre ih =>
    intro s
    have hp : LF ≠ p := fun h => hpre (by simp [h])
    have hpre2 : LF ∉ pre := fun h => hpre (by simp [h])
    cases s with
    | nil =>
      rw [List.nil_append, HasPrefix_cons_cons, HasPrefix_nil_cons]
      simp [hp]
    | cons a s =>
      rw [List.cons_append, HasPrefix_cons_cons, HasPrefix_cons_cons, ih hpre2]

theorem HasPrefix_append_append (pre : GoString) (s q : GoString) :
    HasPrefix (pre ++ s) (pre ++ q) = HasPrefix s q := by
  induction pre with
  | nil => rfl
  | cons p pre ih => rw [List.cons_append, List.cons_append, HasPrefix_cons_cons, ih]; simp

theorem HasPrefix_of_append (s pre q : GoString) (h : HasPrefix s (pre ++ q) = true) :
    HasPrefix s pre = true := by
  obtain ⟨t, ht⟩ := (HasPrefix_iff s (pre ++ q)).mp h
  exact (HasPrefix_iff s pre).mpr ⟨q ++ t, by rw [ht, List.append_assoc]⟩

theorem stdinPayload_marker (q : GoString) :
    HasPrefix (stdinPayload q) (str "Q: ") = HasPrefix q (str "Q: Q: ") := by
  have hlf : LF ∉ str "Q: " := by decide
  have hnl : str "\n" = [LF] := by decide
  have hqq : str "Q: Q: " = str "Q: " ++ str "Q: " := by decide
  have h3 : (str "Q: ").length = 3 := by decide
  unfold stdinPayload
  rw [hnl]
  by_cases h : HasPrefix q (str "Q: ") = true
  · rw [if_pos h, HasPrefix_append_LF _ hlf]
    obtain ⟨t, ht⟩ := (HasPrefix_iff q _).mp h
    subst ht
    rw [hqq, HasPrefix_append_append, ← h3, List.drop_left]
  · rw [if_neg h, HasPrefix_append_LF _ hlf]
    have h2 : ¬ HasPrefix q (str "Q: Q: ") = true := by
      intro h2
      rw [hqq] at h2
      exact h (HasPrefix_of_append _ _ _ h2)
    rw [Bool.not_eq_true] at h h2
    rw [h, h2]

/-- Claim C7, amended: for every query string the payload evaluateRelevanceRawStdin writes to the
standard input of the evaluator is the query without its leading `Q: ` (when it has one)
followed by a line feed.  It ends with a line feed, and it begins with `Q: ` only when the
query begins with `Q: Q: `. -/
theorem C7_stdin_payload (h : Host) (x : Exec) (relevance pathQna p : GoString)
    (hpriv : ¬ (h.goos = str "darwin" ∧ h.euid ≠ 0))
    (hpath : resolvePath h pathQna = (p, none))
    (hpipe : x.stdinPipe p = none) :
    (evaluateRelevanceRawStdin h x relevance pathQna).stdin = some (stdinPayload relevance) ∧
      stdinPayload relevance =
        (if HasPrefix relevance (str "Q: ") then relevance.drop 3 else relevance) ++ [LF] ∧
      (stdinPayload relevance).getLast? = some LF ∧
      HasPrefix (stdinPayload relevance) (str "Q: ") = HasPrefix relevance (str "Q: Q: ") := by
  have hnl : str "\n" = [LF] := by decide
  refine ⟨run_stdin h x relevance pathQna p hpriv hpath hpipe, ?_, ?_, stdinPayload_marker _⟩
  · unfold stdinPayload; rw [hnl]
  · unfold stdinPayload; rw [hnl]; simp

theorem C7_stdin_payload_witness :
    ¬ (linuxHost.goos = str "darwin" ∧ linuxHost.euid ≠ 0) ∧
      resolvePath linuxHost (str "qna") = (str "qna", none) ∧
      (fixedExec Race.timer).stdinPipe (str "qna") = none ∧
      (evaluateRelevanceRawStdin linuxHost (fixedExec Race.timer) (str "Q: version of client")
        (str "qna")).stdin = some (stdinPayload (str "Q: version of client")) :=
  ⟨by decide, by decide, rfl,
    (C7_stdin_payload linuxHost (fixedExec Race.timer) (str "Q: version of client") (str "qna")
      (str "qna") (by decide) (by decide) rfl).1⟩

/-- Claim C8: for every query `q` that does not start with `Q: `, evaluateRelevanceRawStdin
behaves on `q` and on `Q: q` alike, writing the same bytes `q`, line feed, to standard input,
and writeRelevanceFile writes the same bytes `Q: q` to the input file for both. -/
theorem C8_marker_irrelevant (h : Host) (x : Exec) (q pathQna relFilePath : GoString)
    (hq : HasPrefix q (str "Q: ") = false) :
    evaluateRelevanceRawStdin h x q pathQna =
        evaluateRelevanceRawStdin h x (str "Q: " ++ q) pathQna ∧
      (evaluateRelevanceRawStdin h x q pathQna).stdin =
        (evaluateRelevanceRawStdin h x (str "Q: " ++ q) pathQna).stdin ∧
      stdinPayload q = stdinPayload (str "Q: " ++ q) ∧
      stdinPayload q = q ++ [LF] ∧
      writeRelevanceFile h q relFilePath = writeRelevanceFile h (str "Q: " ++ q) relFilePath ∧
      (writeRelevanceFile h q relFilePath).1.data = str "Q: " ++ q := by
  have hnl : str "\n" = [LF] := by decide
  have h3 : (str "Q: ").length = 3 := by decide
  have hpre : HasPrefix (str "Q: " ++ q) (str "Q: ") = true :=
    (HasPrefix_iff _ _).mpr ⟨q, rfl⟩
  have hdrop : (str "Q: " ++ q).drop 3 = q := by rw [← h3, List.drop_left]
  have hrun : evaluateRelevanceRawStdin h x q pathQna =
      evaluateRelevanceRawStdin h x (str "Q: " ++ q) pathQna := by
    unfold evaluateRelevanceRawStdin
    simp only [hq, hpre, hdrop, if_true, Bool.false_eq_true, if_false]
  refine ⟨hrun, by rw [hrun], ?_, ?_, ?_, ?_⟩
  · unfold stdinPayload
    simp only [hq, hpre, hdrop, if_true, Bool.false_eq_true, if_false]
  · unfold stdinPayload
    simp only [hq, Bool.false_eq_true, if_false, hnl]
  · unfold writeRelevanceFile
    simp only [hq, hpre, Bool.not_false, Bool.not_true, if_true, Bool.false_eq_true, if_false]
  · unfold writeRelevanceFile
    simp only [hq, Bool.not_false, if_true]

theorem C8_marker_irrelevant_witness :
    HasPrefix (str "version of client") (str "Q: ") = false ∧
      (evaluateRelevanceRawStdin linuxHost (fixedExec Race.timer) (str "version of client")
          (str "qna")).stdin =
        (evaluateRelevanceRawStdin linuxHost (fixedExec Race.timer)
          (str "Q: " ++ str "version of client") (str "qna")).stdin :=
  ⟨by decide,
    (C8_marker_irrelevant linuxHost (fixedExec Race.timer) (str "version of client") (str "qna")
      (str "relevance_tmp.txt") (by decide)).2.1⟩

/-! ## C9: the locator -/

theorem getQnaPathFrom_cons (h : Host) (path : GoString) (rest : List GoString) :
    getQnaPathFrom h (path :: rest) =
      if usable h path then (path, none) else getQnaPathFrom h rest := by
  rw [getQnaPathFrom]
  unfold usable
  cases hs : (h.stat path).isSome <;> cases he : isExecutable h path <;> simp

theorem getQnaPathFrom_find (h : Host) (paths : List GoString) :
    getQnaPathFrom h paths =
      match paths.find? (usable h) with
      | some p => (p, none)
      | none => ([], some (str "valid QNA path not found")) := by
  induction paths with
  | nil => rfl
  | cons path rest ih =>
    rw [getQnaPathFrom_cons, List.find?_cons]
    cases hu : usable h path
    · simpa using ih
    · simp

/-- Claim C9: getQnaPath returns the first candidate, in list order, that exists and is
executable, whatever later candidates do; it returns the error `valid QNA path not found`
exactly when no candidate qualifies; when only the last candidate qualifies, that one is
returned; a returned path always qualifies. -/
theorem C9_first_usable_candidate (h : Host) (paths : List GoString) :
    getQnaPath h = getQnaPathFrom h qnaPaths ∧
      (getQnaPathFrom h paths =
        match paths.find? (usable h) with
        | some p => (p, none)
        | none => ([], some (str "valid QNA path not found"))) ∧
      (∀ front back : List GoString, ∀ p : GoString, paths = front ++ p :: back →
        (∀ c ∈ front, usable h c = false) → usable h p = true →
        getQnaPathFrom h paths = (p, none)) ∧
      ((getQnaPathFrom h paths).2 = some (str "valid QNA path not found") ↔
        ∀ c ∈ paths, usable h c = false) ∧
      ((getQnaPathFrom h paths).2 ≠ none ↔ ∀ c ∈ paths, usable h c = false) ∧
      ((getQnaPathFrom h paths).2 = none →
        (getQnaPathFrom h paths).1 ∈ paths ∧ usable h (getQnaPathFrom h paths).1 = true) ∧
      getQnaPath lastOnlyHost = (str "qna.exe", none) ∧
      getQnaPath linuxHost = ([], some (str "valid QNA path not found")) := by
  refine ⟨rfl, getQnaPathFrom_find h paths, ?_, ?_, ?_, ?_, by decide, by decide⟩
  · intro front back p hp hfront hpu
    subst hp
    clear * - hfront hpu
    induction front with
    | nil => rw [List.nil_append, getQnaPathFrom_cons, hpu]; rfl
    | cons c front ih =>
      rw [List.cons_append, getQnaPathFrom_cons, hfront c (List.mem_cons_self _ _)]
      exact ih (fun d hd => hfront d (List.mem_cons_of_mem _ hd))
  · rw [getQnaPathFrom_find]
    cases hf : paths.find? (usable h) with
    | none =>
      simp only [true_iff]
      intro c hc
      have := List.find?_eq_none.mp hf c hc
      simpa using this
    | some p =>
      simp only [false_iff, reduceCtorEq]
      intro hall
      have hp := List.find?_some hf
      have hm := List.mem_of_find?_eq_some hf
      rw [hall p hm] at hp
      exact absurd hp (by decide)
  · rw [getQnaPathFrom_find]
    cases hf : paths.find? (usable h) with
    | none =>
      simp only [ne_eq, reduceCtorEq, not_false_eq_true, true_iff]
      intro c hc
      have := List.find?_eq_none.mp hf c hc
      simpa using this
    | some p =>
      simp only [ne_eq, not_true_eq_false, false_iff]
      intro hall
      have hp := List.find?_some hf
      have hm := List.mem_of_find?_eq_some hf
      rw [hall p hm] at hp
      exact absurd hp (by decide)
  · rw [getQnaPathFrom_find]
    cases hf : paths.find? (usable h) with
    | none => simp
    | some p =>
      intro _
      exact ⟨List.mem_of_find?_eq_some hf, List.find?_some hf⟩

/-! ## C10: process exit, `cmd.Wait()` and the timer -/

/-- The run in which `cmd.Wait()` returns an error first. -/
theorem run_wait_error (h : Host) (x : Exec) (relevance pathQna p stdout stderr e : GoString)
    (elapsed : Int)
    (hpriv : ¬ (h.goos = str "darwin" ∧ h.euid ≠ 0))
    (hpath : resolvePath h pathQna = (p, none))
    (hpipe : x.stdinPipe p = none) (hstart : x.start p = none)
    (hrace : x.race p (stdinPayload relevance) = Race.done (some e) stdout stderr elapsed) :
    evaluateRelevanceRawStdin h x relevance pathQna =
      ⟨[], some e, some (stdinPayload relevance), false, []⟩ := by
  unfold resolvePath at hpath
  unfold stdinPayload at hrace
  unfold evaluateRelevanceRawStdin stdinPayload
  simp only [if_neg hpriv, hpath, hpipe, hstart, hrace]

/-- The run in which the timer fires first. -/
theorem run_timer (h : Host) (x : Exec) (relevance pathQna p : GoString)
    (hpriv : ¬ (h.goos = str "darwin" ∧ h.euid ≠ 0))
    (hpath : resolvePath h pathQna = (p, none))
    (hpipe : x.stdinPipe p = none) (hstart : x.start p = none)
    (hrace : x.race p (stdinPayload relevance) = Race.timer) :
    evaluateRelevanceRawStdin h x relevance pathQna =
      ⟨[], some (str "command timed out"), some (stdinPayload relevance), true, []⟩ := by
  unfold resolvePath at hpath
  unfold stdinPayload at hrace
  unfold evaluateRelevanceRawStdin stdinPayload
  simp only [if_neg hpriv, hpath, hpipe, hstart, hrace]

/-- Once the process is started, the outcome of evaluateRelevanceRawStdin is decided by the
select.  If `cmd.Wait()` returns nil before the timer, the call succeeds whatever the standard
error holds, and a second command with the same standard output and elapsed time but another
standard error gives the same returned text.  If `cmd.Wait()` returns an error first, the
call fails with it.  If the 30 second timer fires first, the process is killed and the call
fails with `command timed out` and no output. -/
theorem outcome_by_select (h : Host) (x x2 : Exec) (relevance pathQna p : GoString)
    (hpriv : ¬ (h.goos = str "darwin" ∧ h.euid ≠ 0))
    (hpath : resolvePath h pathQna = (p, none))
    (hpipe : x.stdinPipe p = none) (hstart : x.start p = none)
    (hpipe2 : x2.stdinPipe p = none) (hstart2 : x2.start p = none) :
    (∀ (stdout stderr : GoString) (elapsed : Int),
        x.race p (stdinPayload relevance) = Race.done none stdout stderr elapsed →
        (evaluateRelevanceRawStdin h x relevance pathQna).err = none ∧
          (evaluateRelevanceRawStdin h x relevance pathQna).output = annotate stdout elapsed ∧
          (evaluateRelevanceRawStdin h x relevance pathQna).killed = false ∧
          ∀ stderr2 : GoString,
            x2.race p (stdinPayload relevance) = Race.done none stdout stderr2 elapsed →
            (evaluateRelevanceRawStdin h x2 relevance pathQna).err = none ∧
              (evaluateRelevanceRawStdin h x2 relevance pathQna).output =
                (evaluateRelevanceRawStdin h x relevance pathQna).output) ∧
      (∀ (e stdout stderr : GoString) (elapsed : Int),
        x.race p (stdinPayload relevance) = Race.done (some e) stdout stderr elapsed →
        (evaluateRelevanceRawStdin h x relevance pathQna).err = some e ∧
          (evaluateRelevanceRawStdin h x relevance pathQna).output = []) ∧
      (x.race p (stdinPayload relevance) = Race.timer →
        (evaluateRelevanceRawStdin h x relevance pathQna).err = some (str "command timed out") ∧
          (evaluateRelevanceRawStdin h x relevance pathQna).output = [] ∧
          (evaluateRelevanceRawStdin h x relevance pathQna).killed = true) := by
  refine ⟨?_, ?_, ?_⟩
  · intro stdout stderr elapsed hrace
    rw [run_success h x relevance pathQna p stdout stderr elapsed hpriv hpath hpipe hstart hrace]
    refine ⟨rfl, rfl, rfl, ?_⟩
    intro stderr2 hrace2
    rw [run_success h x2 relevance pathQna p stdout stderr2 elapsed hpriv hpath hpipe2 hstart2
      hrace2]
    exact ⟨rfl, rfl⟩
  · intro e stdout stderr elapsed hrace
    rw [run_wait_error h x relevance pathQna p stdout stderr e elapsed hpriv hpath hpipe hstart
      hrace]
    exact ⟨rfl, rfl⟩
  · intro hrace
    rw [run_timer h x relevance pathQna p hpriv hpath hpipe hstart hrace]
    exact ⟨rfl, rfl, rfl⟩

/-- Claim C10 at an evaluator that prints `A: 1`, exits with status zero at once and leaves
a child holding its standard output: `cmd.Wait()` does not return while the pipe is open,
the timer fires first, and evaluateRelevanceRawStdin kills the process and fails with
`command timed out` and no output, although the process exited with status zero before
the timer.  Without the child the same evaluator gives a successful call with the answer `1`. -/
theorem C10_exit_zero_times_out :
    lingeringChild.exitStatus = 0 ∧ lingeringChild.exitsBeforeTimer = true ∧
      (evaluateRelevanceRawStdin linuxHost (processExec lingeringChild)
        (str "version of client") (str "qna")).err = some (str "command timed out") ∧
      (evaluateRelevanceRawStdin linuxHost (processExec lingeringChild)
        (str "version of client") (str "qna")).output = [] ∧
      (evaluateRelevanceRawStdin linuxHost (processExec lingeringChild)
        (str "version of client") (str "qna")).killed = true ∧
      (evaluateRelevanceRawStdin linuxHost (processExec promptProcess)
        (str "version of client") (str "qna")).err = none ∧
      parseRawResultArray (evaluateRelevanceRawStdin linuxHost (processExec promptProcess)
        (str "version of client") (str "qna")).output = [str "1"] := by
  decide

/-! ## C2 and C3: the batch -/

/-- The error a worker reports is the error of its evaluation. -/
theorem worker_err (h : Host) (x : Exec) (resultsType rel p : GoString) :
    (worker h x resultsType rel p).2 = (evaluateRelevanceRawStdin h x rel p).err := by
  unfold worker evaluateRelevanceString evaluateRelevanceArray evaluateRelevanceRaw
  cases he : (evaluateRelevanceRawStdin h x rel p).err <;> split <;> simp [he]

/-- The result a worker reports after a successful evaluation. -/
theorem worker_res (h : Host) (x : Exec) (resultsType rel p : GoString)
    (hok : (evaluateRelevanceRawStdin h x rel p).err = none) :
    (worker h x resultsType rel p).1 =
      if resultsType = str "array" then
        parseRawResultArray (evaluateRelevanceRawStdin h x rel p).output
      else [Join (parseRawResultArray (evaluateRelevanceRawStdin h x rel p).output) (str "\n")] := by
  unfold worker evaluateRelevanceString evaluateRelevanceArray evaluateRelevanceRaw
  split <;> simp [hok]

/-- The channel after the workers of `order` have reported. -/
theorem fold_errChan (h : Host) (execs : Nat → Exec) (relevances : List GoString)
    (resultsType p : GoString) (order : List Nat) :
    ∀ b : Batch,
      (order.foldl (report h execs relevances resultsType p) b).errChan =
        b.errChan ++ order.filterMap (fun i =>
          match relevances[i]? with
          | none => none
          | some q => (worker h (execs i) resultsType q p).2) := by
  induction order with
  | nil => intro b; simp
  | cons i order ih =>
    intro b
    rw [List.foldl_cons, ih, List.filterMap_cons]
    unfold report
    cases hq : relevances[i]? with
    | none => simp
    | some q =>
      dsimp only
      cases hw : worker h (execs i) resultsType q p with
      | mk res err =>
        cases err with
        | none => simp
        | some e => simp

/-- The slots after the workers of `order` have reported, none of them with an error. -/
theorem fold_results (h : Host) (execs : Nat → Exec) (relevances : List GoString)
    (resultsType p : GoString) (order : List Nat)
    (hok : ∀ i ∈ order, ∀ q, relevances[i]? = some q →
      (worker h (execs i) resultsType q p).2 = none) :
    ∀ b : Batch,
      (order.foldl (report h execs relevances resultsType p) b).results =
        order.foldl (fun r i =>
          match relevances[i]? with
          | none => r
          | some q => r.set i (worker h (execs i) resultsType q p).1) b.results := by
  induction order with
  | nil => intro b; rfl
  | cons i order ih =>
    intro b
    rw [List.foldl_cons, List.foldl_cons,
      ih (fun j hj => hok j (List.mem_cons_of_mem _ hj))]
    congr 1
    unfold report
    cases hq : relevances[i]? with
    | none => rfl
    | some q =>
      dsimp only
      have := hok i (List.mem_cons_self _ _) q hq
      cases hw : worker h (execs i) resultsType q p with
      | mk res err =>
        rw [hw] at this
        dsimp only at this
        subst this
        rfl

/-- Writing each slot of `order` once, in any order. -/
theorem fold_set_getElem? (relevances : List GoString) (g : Nat → GoString → List GoString)
    (order : List Nat) :
    ∀ (init : List (List GoString)) (j : Nat), init.length = relevances.length →
      (order.foldl (fun r i =>
          match relevances[i]? with
          | none => r
          | some q => r.set i (g i q)) init)[j]? =
        if j ∈ order then (relevances[j]?).map (g j) else init[j]? := by
  induction order with
  | nil => intro init j _; simp
  | cons i order ih =>
    intro init j hlen
    rw [List.foldl_cons]
    cases hq : relevances[i]? with
    | none =>
      dsimp only
      rw [ih init j hlen]
      by_cases hj : j ∈ order
      · simp [hj]
      · by_cases hji : j = i
        · subst hji
          have : init[j]? = none := by
            rw [List.getElem?_eq_none_iff] at hq ⊢
            omega
          simp [hj, hq, this]
        · simp [hj, hji]
    | some q =>
      dsimp only
      rw [ih (init.set i (g i q)) j (by rw [List.length_set]; exact hlen)]
      by_cases hj : j ∈ order
      · simp [hj]
      · by_cases hji : j = i
        · subst hji
          have hlt : j < relevances.length := by
            rcases List.getElem?_eq_some_iff.mp hq with ⟨hl, _⟩
            exact hl
          simp [hj, hq, List.getElem?_set, hlen, hlt]
        · have hij : ¬ i = j := fun e => hji e.symm
          simp [hj, hji, List.getElem?_set, hij]

theorem fold_set_length (relevances : List GoString) (g : Nat → GoString → List GoString)
    (order : List Nat) :
    ∀ init : List (List GoString),
      (order.foldl (fun r i =>
          match relevances[i]? with
          | none => r
          | some q => r.set i (g i q)) init).length = init.length := by
  induction order with
  | nil => intro init; rfl
  | cons i order ih =>
    intro init
    rw [List.foldl_cons, ih]
    cases relevances[i]? <;> simp

/-- A call with the settled path behaves as the call with the path that was passed in. -/
theorem run_resolved (h : Host) (x : Exec) (q pathQna p : GoString)
    (hres : resolvePath h pathQna = (p, none)) :
    evaluateRelevanceRawStdin h x q p = evaluateRelevanceRawStdin h x q pathQna := by
  have key : (if p = [] then getQnaPath h else (p, none)) =
      (if pathQna = [] then getQnaPath h else (pathQna, none)) := by
    unfold resolvePath at hres
    rw [hres]
    by_cases hq : pathQna = []
    · rw [if_pos hq] at hres
      by_cases hp : p = []
      · rw [if_pos hp]; exact hres
      · rw [if_neg hp]
    · rw [if_neg hq] at hres
      have hpq : pathQna = p := (Prod.mk.inj hres).1
      subst hpq
      rw [if_neg hq]
  unfold evaluateRelevanceRawStdin
  rw [key]

/-- A call that succeeds has settled its evaluator path. -/
theorem run_ok_resolves (h : Host) (x : Exec) (q pathQna : GoString)
    (hok : (evaluateRelevanceRawStdin h x q pathQna).err = none) :
    ∃ p, resolvePath h pathQna = (p, none) := by
  cases hres : resolvePath h pathQna with
  | mk p err =>
    cases err with
    | none => exact ⟨p, rfl⟩
    | some e =>
      exfalso
      unfold resolvePath at hres
      unfold evaluateRelevanceRawStdin at hok
      by_cases hd : h.goos = str "darwin" ∧ h.euid ≠ 0
      · simp [hd] at hok
      · simp [hd, hres] at hok

/-- The batch once the query list is not empty and the evaluator path is settled. -/
theorem batch_unfold (h : Host) (execs : Nat → Exec) (order : List Nat)
    (relevances : List GoString) (resultsType pathQna p : GoString)
    (hne : relevances ≠ [])
    (hpath : resolvePath h pathQna = (p, none)) :
    evaluateRelevancesArrayToMany h execs order relevances resultsType pathQna =
      match (order.foldl (report h execs relevances resultsType p)
          ⟨List.replicate relevances.length [], []⟩).errChan with
      | e :: _ => (none, some e)
      | [] => (some (order.foldl (report h execs relevances resultsType p)
          ⟨List.replicate relevances.length [], []⟩).results, none) := by
  unfold resolvePath at hpath
  unfold evaluateRelevancesArrayToMany
  have hlen : ¬ relevances.length = 0 := fun h0 => hne (List.length_eq_zero.mp h0)
  simp only [if_neg hlen, hpath]

/-- The batch in which every worker succeeds, in terms of the settled path. -/
theorem batch_positional_resolved (h : Host) (execs : Nat → Exec) (order : List Nat)
    (relevances : List GoString) (resultsType pathQna p : GoString)
    (hne : relevances ≠ [])
    (hpath : resolvePath h pathQna = (p, none))
    (hperm : order.Perm (List.range relevances.length))
    (hok : ∀ i q, relevances[i]? = some q →
      (evaluateRelevanceRawStdin h (execs i) q p).err = none) :
    ∃ result : List (List GoString),
      evaluateRelevancesArrayToMany h execs order relevances resultsType pathQna =
        (some result, none) ∧
      result.length = relevances.length ∧
      ∀ i q, relevances[i]? = some q →
        result[i]? = some
          (if resultsType = str "array" then
            parseRawResultArray (evaluateRelevanceRawStdin h (execs i) q p).output
          else
            [Join (parseRawResultArray (evaluateRelevanceRawStdin h (execs i) q p).output)
              (str "\n")]) := by
  have hwok : ∀ i ∈ order, ∀ q, relevances[i]? = some q →
      (worker h (execs i) resultsType q p).2 = none := by
    intro i _ q hq
    rw [worker_err]; exact hok i q hq
  have herr : (order.foldl (report h execs relevances resultsType p)
      ⟨List.replicate relevances.length [], []⟩).errChan = [] := by
    rw [fold_errChan, List.nil_append, List.filterMap_eq_nil_iff]
    intro i hi
    cases hq : relevances[i]? with
    | none => rfl
    | some q => exact hwok i hi q hq
  rw [batch_unfold h execs order relevances resultsType pathQna p hne hpath, herr]
  refine ⟨_, rfl, ?_, ?_⟩
  · rw [fold_results h execs relevances resultsType p order hwok, fold_set_length]
    simp
  · intro i q hq
    rw [fold_results h execs relevances resultsType p order hwok,
      fold_set_getElem? relevances (fun i q => (worker h (execs i) resultsType q p).1) order
        _ i (by simp)]
    have hlt : i < relevances.length := (List.getElem?_eq_some_iff.mp hq).1
    have hmem : i ∈ order := hperm.mem_iff.mpr (List.mem_range.mpr hlt)
    rw [if_pos hmem, hq, Option.map_some']
    rw [worker_res h (execs i) resultsType q p (hok i q hq)]

/-- Claim C2: for a non-empty list of queries whose evaluations all succeed,
evaluateRelevancesArrayToMany returns no error and a result as long as the list, in which,
whatever the order in which the workers finish, entry `i` is the answer list parsed from
the raw output of query `i` in array mode, and the one-element list holding that answer
list joined with line feeds in every other mode. -/
theorem C2_batch_positional (h : Host) (execs : Nat → Exec) (order : List Nat)
    (relevances : List GoString) (resultsType pathQna : GoString)
    (hne : relevances ≠ [])
    (hperm : order.Perm (List.range relevances.length))
    (hok : ∀ i q, relevances[i]? = some q →
      (evaluateRelevanceRawStdin h (execs i) q pathQna).err = none) :
    ∃ result : List (List GoString),
      evaluateRelevancesArrayToMany h execs order relevances resultsType pathQna =
        (some result, none) ∧
      result.length = relevances.length ∧
      ∀ i q, relevances[i]? = some q →
        result[i]? = some
          (if resultsType = str "array" then
            parseRawResultArray (evaluateRelevanceRawStdin h (execs i) q pathQna).output
          else
            [Join (parseRawResultArray (evaluateRelevanceRawStdin h (execs i) q pathQna).output)
              (str "\n")]) := by
  obtain ⟨q0, rest, hq0⟩ : ∃ q0 rest, relevances = q0 :: rest := by
    cases relevances with
    | nil => exact absurd rfl hne
    | cons q0 rest => exact ⟨q0, rest, rfl⟩
  obtain ⟨p, hres⟩ := run_ok_resolves h (execs 0) q0 pathQna (hok 0 q0 (by rw [hq0]; simp))
  obtain ⟨result, hcall, hlen, hget⟩ :=
    batch_positional_resolved h execs order relevances resultsType pathQna p hne hres hperm
      (fun i q hq => by rw [run_resolved h (execs i) q pathQna p hres]; exact hok i q hq)
  refine ⟨result, hcall, hlen, ?_⟩
  intro i q hq
  rw [hget i q hq, run_resolved h (execs i) q pathQna p hres]

theorem C2_batch_positional_witness :
    [str "one", str "two"] ≠ [] ∧
      [1, 0].Perm (List.range [str "one", str "two"].length) ∧
      ∃ result : List (List GoString),
        evaluateRelevancesArrayToMany linuxHost
          (fun i => fixedExec (Race.done none (if i = 0 then str "A: 1\n" else str "A: 2\n") [] 5))
          [1, 0] [str "one", str "two"] (str "array") (str "qna") = (some result, none) ∧
        result.length = [str "one", str "two"].length ∧
        ∀ i q, [str "one", str "two"][i]? = some q →
          result[i]? = some
            (if str "array" = str "array" then
              parseRawResultArray (evaluateRelevanceRawStdin linuxHost
                (fixedExec (Race.done none (if i = 0 then str "A: 1\n" else str "A: 2\n") [] 5))
                q (str "qna")).output
            else
              [Join (parseRawResultArray (evaluateRelevanceRawStdin linuxHost
                (fixedExec (Race.done none (if i = 0 then str "A: 1\n" else str "A: 2\n") [] 5))
                q (str "qna")).output) (str "\n")]) :=
  ⟨by decide, by decide,
    C2_batch_positional linuxHost
      (fun i => fixedExec (Race.done none (if i = 0 then str "A: 1\n" else str "A: 2\n") [] 5))
      [1, 0] [str "one", str "two"] (str "array") (str "qna")
      (by decide) (by decide)
      (fun i q _ => by
        rw [run_success linuxHost _ q (str "qna") (str "qna")
          (if i = 0 then str "A: 1\n" else str "A: 2\n") [] 5 (by decide) (by decide) rfl rfl rfl])⟩

/-- Claim C3: evaluateRelevancesArrayToMany returns an error exactly when the query list is
empty, or no evaluator path was passed and the locator finds none, or the evaluation of at
least one query fails; with an error the result is nil, and with no error it is a slice as
long as the query list. -/
theorem C3_batch_error_iff (h : Host) (execs : Nat → Exec) (order : List Nat)
    (relevances : List GoString) (resultsType pathQna : GoString)
    (hperm : order.Perm (List.range relevances.length)) :
    ((evaluateRelevancesArrayToMany h execs order relevances resultsType pathQna).2 ≠ none ↔
        relevances = [] ∨
        (pathQna = [] ∧ (getQnaPath h).2 ≠ none) ∨
        ∃ i q, relevances[i]? = some q ∧
          (evaluateRelevanceRawStdin h (execs i) q pathQna).err ≠ none) ∧
      ((evaluateRelevancesArrayToMany h execs order relevances resultsType pathQna).2 ≠ none →
        (evaluateRelevancesArrayToMany h execs order relevances resultsType pathQna).1 = none) ∧
      ((evaluateRelevancesArrayToMany h execs order relevances resultsType pathQna).2 = none →
        ∃ result,
          (evaluateRelevancesArrayToMany h execs order relevances resultsType pathQna).1
            = some result ∧ result.length = relevances.length) ∧
      (relevances = [] →
        evaluateRelevancesArrayToMany h execs order relevances resultsType pathQna =
          (none, some (str "relevances list is empty"))) := by
  by_cases hne : relevances = []
  · subst hne
    have e : evaluateRelevancesArrayToMany h execs order [] resultsType pathQna =
        (none, some (str "relevances list is empty")) := by
      unfold evaluateRelevancesArrayToMany; simp
    rw [e]
    simp
  · cases hres : resolvePath h pathQna with
    | mk p err =>
      cases err with
      | some e =>
        have hcall : evaluateRelevancesArrayToMany h execs order relevances resultsType pathQna
            = (none, some e) := by
          unfold resolvePath at hres
          unfold evaluateRelevancesArrayToMany
          have hlen : ¬ relevances.length = 0 := fun h0 => hne (List.length_eq_zero.mp h0)
          simp only [if_neg hlen, hres]
        have hloc : pathQna = [] ∧ (getQnaPath h).2 ≠ none := by
          unfold resolvePath at hres
          by_cases hp : pathQna = []
          · rw [if_pos hp] at hres
            refine ⟨hp, ?_⟩
            rw [hres]; simp
          · rw [if_neg hp] at hres
            simp at hres
        rw [hcall]
        refine ⟨?_, ?_, ?_, ?_⟩
        · simp only [ne_eq, reduceCtorEq, not_false_eq_true, true_iff]
          exact Or.inr (Or.inl hloc)
        · intro _; rfl
        · intro h0; simp at h0
        · intro h0; exact absurd h0 hne
      | none =>
        have hnoloc : ¬ (pathQna = [] ∧ (getQnaPath h).2 ≠ none) := by
          rintro ⟨hp, hg⟩
          unfold resolvePath at hres
          rw [if_pos hp] at hres
          rw [hres] at hg
          exact hg rfl
        rw [batch_unfold h execs order relevances resultsType pathQna p hne hres]
        have hchan := fold_errChan h execs relevances resultsType p order
          ⟨List.replicate relevances.length [], []⟩
        rw [List.nil_append] at hchan
        cases hc : (order.foldl (report h execs relevances resultsType p)
            ⟨List.replicate relevances.length [], []⟩).errChan with
        | nil =>
          have hall : ∀ i q, relevances[i]? = some q →
              (worker h (execs i) resultsType q p).2 = none := by
            intro i q hq
            rw [hc] at hchan
            have hmem : i ∈ order :=
              hperm.mem_iff.mpr (List.mem_range.mpr (List.getElem?_eq_some_iff.mp hq).1)
            have := List.filterMap_eq_nil_iff.mp hchan.symm i hmem
            rw [hq] at this
            exact this
          refine ⟨?_, ?_, ?_, ?_⟩
          · simp only [ne_eq, not_true_eq_false, false_iff, not_or, not_exists, not_and,
              not_not]
            refine ⟨hne, fun hp => Classical.not_not.mp (fun hg => hnoloc ⟨hp, hg⟩), ?_⟩
            intro i q hq
            rw [← run_resolved h (execs i) q pathQna p hres,
              ← worker_err h (execs i) resultsType q p]
            exact hall i q hq
          · intro h0; exact absurd rfl h0
          · intro _
            refine ⟨_, rfl, ?_⟩
            rw [fold_results h execs relevances resultsType p order
              (fun i _ q hq => hall i q hq), fold_set_length]
            simp
          · intro h0; exact absurd h0 hne
        | cons e rest =>
          refine ⟨?_, ?_, ?_, ?_⟩
          · simp only [ne_eq, reduceCtorEq, not_false_eq_true, true_iff]
            right; right
            rw [hc] at hchan
            have hmem : e ∈ order.filterMap (fun i =>
                match relevances[i]? with
                | none => none
                | some q => (worker h (execs i) resultsType q p).2) := by
              rw [← hchan]; exact List.mem_cons_self _ _
            obtain ⟨i, _, hi⟩ := List.mem_filterMap.mp hmem
            cases hq : relevances[i]? with
            | none => rw [hq] at hi; simp at hi
            | some q =>
              rw [hq] at hi
              dsimp only at hi
              refine ⟨i, q, hq, ?_⟩
              rw [← run_resolved h (execs i) q pathQna p hres,
                ← worker_err h (execs i) resultsType q p, hi]
              simp
          · intro _; rfl
          · intro h0; simp at h0
          · intro h0; exact absurd h0 hne

theorem C3_batch_error_iff_witness :
    [1, 0].Perm (List.range [str "one", str "two"].length) ∧
      (evaluateRelevancesArrayToMany linuxHost
        (fun i => fixedExec (if i = 0 then Race.done none (str "A: 1\n") [] 5 else Race.timer))
        [1, 0] [str "one", str "two"] (str "array") (str "qna")).1 = none :=
  ⟨by decide,
    (C3_batch_error_iff linuxHost
      (fun i => fixedExec (if i = 0 then Race.done none (str "A: 1\n") [] 5 else Race.timer))
      [1, 0] [str "one", str "two"] (str "array") (str "qna") (by decide)).2.1 (by decide)⟩

theorem C9_first_usable_candidate_witness :
    getQnaPathFrom lastOnlyHost qnaPaths = (str "qna.exe", none) :=
  (C9_first_usable_candidate lastOnlyHost qnaPaths).2.2.1
    [str "/usr/local/bin/qna", str "/Library/BESAgent/BESAgent.app/Contents/MacOS/QnA",
      str "/opt/BESClient/bin/qna",
      str "C:/Program Files (x86)/BigFix Enterprise/BES Client/qna.exe", str "qna"]
    [] (str "qna.exe") rfl (by decide) (by decide)

end EvaluateRelevance
